import Mathlib

set_option maxHeartbeats 1000000

/-!
Verification development for the bookstore discount and order-pricing engine
of `bookstore.py`.

Modelling conventions (shallow embedding):
* Python `datetime` instants are modelled as integers (`ℤ`): `Discount.valid`
  only compares instants, so any linearly ordered time domain is faithful.
  Calendar dates used by the assignment rules are modelled by `Date`, which
  carries an absolute day number (for day differences, as computed by
  `(a - b).days` on Python dates) together with the month and day fields
  (for the Black-Friday comparison `today == datetime(today.year, 11,
  24).date()`, which holds exactly when the month is 11 and the day is 24).
* Python float money arithmetic is modelled exactly over `ℚ`; `round(x, 2)`
  is modelled as round-half-to-even at two decimals (`round2`).
* Python objects are references: the same `Discount` object can be aliased
  from several lists and mutated through any of them.  We model a discount
  heap `ℕ → Discount` (references are naturals) and lists of references;
  mutation of a discount is a pointwise heap update (`setRef`).  The
  `Optional` entries produced by failed registry lookups are modelled by
  `Option ℕ` in the assignment-rule layer.
* The external geocoding shipping provider is a parameter: the pricing
  engine receives the returned cost `ship` of `Shipping.shipping_cost`.
-/

namespace Bookstore

/-- A discount record, as built by the `Discount` constructor: id, validity
window, fractional amount, remaining usage count, optional coupon code and
optional author scope. -/
structure Discount where
  id : ℤ
  start_valid : ℤ
  end_valid : ℤ
  amount : ℚ
  nb_usage : ℤ
  coupon_code : Option String
  author_specific : Option String
  deriving DecidableEq

instance : Inhabited Discount := ⟨⟨0, 0, 0, 0, 0, none, none⟩⟩

/-- The `Discount.valid` property: `datetime.now() >= start_valid and
datetime.now() <= end_valid`, with the current instant passed explicitly. -/
def Discount.valid (d : Discount) (now : ℤ) : Bool :=
  decide (d.start_valid ≤ now) && decide (now ≤ d.end_valid)

/-- Python truthiness of an `Optional[str]` field: `None` and the empty
string are falsy, every other string is truthy. -/
def strTruthy : Option String → Bool
  | none => false
  | some s => !(s == "")

/-- A book record: title, author, unit price. -/
structure Book where
  title : String
  author : String
  price : ℚ
  deriving DecidableEq

/-- The Python method `str.lower()`: lowercase every character.  (Defined
by mapping over the character list so that it is kernel-computable;
`String.toLower` is the same map but is defined by well-founded recursion
on positions, which concrete evaluation cannot unfold.) -/
def pyLower (s : String) : String := ⟨s.data.map Char.toLower⟩

/-- Update the discount heap at one reference (mutation of the pointed-to
Python object). -/
def setRef (h : ℕ → Discount) (r : ℕ) (d : Discount) : ℕ → Discount :=
  fun r2 => if r2 = r then d else h r2

/-- The mutable state threaded through `Order.calculate_total_price`: the
discount heap, the list of discount references held by the customer
(`self.customer.discounts`) and the running total (`total_price`). -/
structure PState where
  heap : ℕ → Discount
  cust : List ℕ
  total : ℚ

/-- One iteration of the per-line loop of `calculate_total_price` for the
line `bq = (book, quantity)`, with `asd` the snapshot list
`author_specific_discounts` (a list of references fixed before the loop):
find the first snapshot entry whose `author_specific` equals the author of
the book; if found, add the discounted line subtotal, decrement its
`nb_usage`, and when that reaches 0 rebuild the discount list of the
customer without any discount carrying the same id; otherwise add the full
line subtotal. -/
def lineStep (asd : List ℕ) (s : PState) (bq : Book × ℕ) : PState :=
  match asd.find? (fun r => (s.heap r).author_specific == some bq.1.author) with
  | none => { s with total := s.total + bq.1.price * (bq.2 : ℚ) }
  | some r =>
    let d := s.heap r
    let heap2 := setRef s.heap r { d with nb_usage := d.nb_usage - 1 }
    let cust2 :=
      if d.nb_usage - 1 = 0 then
        s.cust.filter (fun r2 => !((heap2 r2).id == d.id))
      else s.cust
    { heap := heap2, cust := cust2,
      total := s.total + bq.1.price * (1 - d.amount) * (bq.2 : ℚ) }

/-- One iteration of the order-level loop of `calculate_total_price` for the
general-discount reference `r` (an entry of the snapshot list
`valid_discounts`): multiply the running total by `(1 - amount)`, decrement
`nb_usage`, and when that reaches 0 rebuild the discount list of the
customer without any discount carrying the same id. -/
def generalStep (s : PState) (r : ℕ) : PState :=
  let d := s.heap r
  let heap2 := setRef s.heap r { d with nb_usage := d.nb_usage - 1 }
  let cust2 :=
    if d.nb_usage - 1 = 0 then
      s.cust.filter (fun r2 => !((heap2 r2).id == d.id))
    else s.cust
  { heap := heap2, cust := cust2, total := s.total * (1 - d.amount) }

/-- The snapshot `author_specific_discounts = list(filter(lambda d: d.valid
and d.author_specific, customer.discounts))`. -/
def authorSnapshot (now : ℤ) (heap : ℕ → Discount) (cust : List ℕ) : List ℕ :=
  cust.filter (fun r => (heap r).valid now && strTruthy (heap r).author_specific)

/-- The snapshot `valid_discounts = list(filter(lambda d: d.valid and not
d.author_specific, customer.discounts))`. -/
def generalSnapshot (now : ℤ) (heap : ℕ → Discount) (cust : List ℕ) : List ℕ :=
  cust.filter (fun r => (heap r).valid now && !(strTruthy (heap r).author_specific))

/-- The two mutation phases of `Order.calculate_total_price`: the per-line
loop over the `(book, quantity)` pairs of the order followed by the
order-level loop over the `valid_discounts` snapshot.  Returns the final
state (heap, discount list of the customer, pre-shipping running total). -/
def runPhases (now : ℤ) (books : List (Book × ℕ)) (heap : ℕ → Discount)
    (cust : List ℕ) : PState :=
  let asd := authorSnapshot now heap cust
  let vd := generalSnapshot now heap cust
  vd.foldl generalStep (books.foldl (lineStep asd) ⟨heap, cust, 0⟩)

/-- Floor of a rational as an integer (used by rounding). -/
def qfloor (x : ℚ) : ℤ := x.num.fdiv (x.den : ℤ)

/-- Round a rational to the nearest integer, ties to even (the Python
`round` builtin). -/
def roundHalfEven (x : ℚ) : ℤ :=
  let f := qfloor x
  if x - (f : ℚ) < 1/2 then f
  else if (1 : ℚ)/2 < x - (f : ℚ) then f + 1
  else if f % 2 = 0 then f else f + 1

/-- The Python expression `round(x, 2)`. -/
def round2 (x : ℚ) : ℚ := (roundHalfEven (x * 100) : ℚ) / 100

/-- The result of `Order.calculate_total_price`: the returned price together
with the final discount heap and the final discount list of the customer. -/
structure CalcResult where
  price : ℚ
  heap : ℕ → Discount
  cust : List ℕ

/-- The function `Order.calculate_total_price`, with the calculation instant
`now` and the returned provider cost `ship` passed explicitly: run the two
mutation phases, then waive the shipping cost exactly when the pre-shipping
total strictly exceeds 50, and return `round(total + shipping, 2)`. -/
def calculate_total_price (now : ℤ) (ship : ℚ) (books : List (Book × ℕ))
    (heap : ℕ → Discount) (cust : List ℕ) : CalcResult :=
  let s := runPhases now books heap cust
  let shipping_cost := if 50 < s.total then 0 else ship
  ⟨round2 (s.total + shipping_cost), s.heap, s.cust⟩

/-- The pre-shipping running total of a calculation (the value tested
against the waiver threshold). -/
def preShipTotal (now : ℤ) (books : List (Book × ℕ)) (heap : ℕ → Discount)
    (cust : List ℕ) : ℚ :=
  (runPhases now books heap cust).total

/-- The undiscounted sum of the line subtotals `price * quantity` of an
order. -/
def lineSubtotal : List (Book × ℕ) → ℚ
  | [] => 0
  | bq :: t => bq.1.price * (bq.2 : ℚ) + lineSubtotal t

/-- An order, as built by `Customer.place_order`: the list of
`(book, quantity)` lines.  A line may reference `none` when the book lookup
that produced it failed (Python appends the `None` returned by
`select_book`).  The back-reference `order.customer` is left implicit. -/
structure Order where
  books : List (Option Book × ℕ)
  deriving DecidableEq

/-- A customer record: username, location, signup date (absolute day
number), the list of assigned discounts (entries are discount-heap
references, or `none` when a rule appended the result of a failed lookup),
and the current order. -/
structure Customer where
  username : String
  location : String
  signup_absDay : ℤ
  discounts : List (Option ℕ)
  order : Option Order
  deriving DecidableEq

/-- A calendar date: absolute day number plus month and day fields. -/
structure Date where
  absDay : ℤ
  month : ℕ
  day : ℕ
  deriving DecidableEq

/-- The store with its master data: the discount heap, the book list, the
discount registry (`master_data.discounts`, as heap references) and the
customer list. -/
structure Store where
  heap : ℕ → Discount
  master_books : List Book
  master_discounts : List ℕ
  customers : List Customer

/-- `Store.select_discount`: first registry discount with the given id,
`None` when there is none. -/
def select_discount (s : Store) (discount_id : ℤ) : Option ℕ :=
  s.master_discounts.find? (fun r => (s.heap r).id == discount_id)

/-- `Store.select_book`: first master book with the given title, `None`
when there is none. -/
def select_book (s : Store) (title : String) : Option Book :=
  s.master_books.find? (fun b => b.title == title)

/-- `Store.select_customer`: first customer with the given username, `None`
when there is none. -/
def select_customer (s : Store) (username : String) : Option Customer :=
  s.customers.find? (fun c => c.username == username)

/-- `Store.select_customers`: all customers whose location equals the given
location exactly. -/
def select_customers (s : Store) (location : String) : List Customer :=
  s.customers.filter (fun c => c.location == location)

/-- `Store.discount_one_year_customers`: append the resolved discount (the
raw `select_discount` result, possibly `None`) to every customer whose
signup date lies at least 365 days in the past. -/
def discount_one_year_customers (s : Store) (discount_id : ℤ) (today : Date) :
    Store :=
  let sel := select_discount s discount_id
  { s with customers := s.customers.map (fun c =>
      if 365 ≤ today.absDay - c.signup_absDay then
        { c with discounts := c.discounts ++ [sel] }
      else c) }

/-- `Store.discount_black_friday`: when today is November 24, append the
resolved discount to every customer; on any other date do nothing (the
lookup itself is also skipped). -/
def discount_black_friday (s : Store) (discount_id : ℤ) (today : Date) :
    Store :=
  if today.month = 11 ∧ today.day = 24 then
    let sel := select_discount s discount_id
    { s with customers := s.customers.map (fun c =>
        { c with discounts := c.discounts ++ [sel] }) }
  else s

/-- `Store.discount_location`: append the resolved discount to every
customer whose location equals `location.lower()` exactly (only the target
string is lowercased). -/
def discount_location (s : Store) (discount_id : ℤ) (location : String) :
    Store :=
  let sel := select_discount s discount_id
  { s with customers := s.customers.map (fun c =>
      if c.location = pyLower location then
        { c with discounts := c.discounts ++ [sel] }
      else c) }

/-- `Store.discount_specific_author`: set `author_specific` on the resolved
discount, then append it to every customer.  When the id resolves to `None`
the attribute assignment on `None` raises (modelled as an error value). -/
def discount_specific_author (s : Store) (discount_id : ℤ) (author : String) :
    Except String Store :=
  match select_discount s discount_id with
  | none => Except.error ("AttributeError")
  | some r =>
    let heap2 := setRef s.heap r { s.heap r with author_specific := some author }
    Except.ok { s with
      heap := heap2
      customers := s.customers.map (fun c =>
        { c with discounts := c.discounts ++ [some r] }) }

/-- `Store.run_all_discount_rules`: runs `discount_black_friday(2)` and then
`discount_one_year_customers(1)`, in that source order. -/
def run_all_discount_rules (s : Store) (today : Date) : Store :=
  discount_one_year_customers (discount_black_friday s 2 today) 1 today

/-- Modelled from the spec: the run-all convenience in the order the spec
states it, the tenure rule (discount id 1) first and the seasonal-date rule
(discount id 2) second.  Used only to compare against
`run_all_discount_rules`. -/
def run_all_rules_spec_order (s : Store) (today : Date) : Store :=
  discount_black_friday (discount_one_year_customers s 1 today) 2 today

/-- `Customer.place_order`: unconditionally create an order holding the
selected `(book, quantity)` pairs and install it on the customer. -/
def place_order (c : Customer) (books_selected : List (Option Book × ℕ)) :
    Customer :=
  { c with order := some { books := books_selected } }

/-! Concrete records used by counterexamples and witnesses. -/

/-- A default customer used with `List.getD`. -/
def defaultCustomer : Customer := ⟨("u0"), ("nowhere"), 0, [], none⟩

/-- An author-scoped discount (id 1, window 0..100, 50 percent off, one use
left, author scope A). -/
def exAuthorDiscount : Discount := ⟨1, 0, 100, 1/2, 1, none, some ("A")⟩

/-- A heap whose every reference holds `exAuthorDiscount`. -/
def exHeapA : ℕ → Discount := fun _ => exAuthorDiscount

/-- First book by author A, price 10. -/
def exBookA1 : Book := ⟨("B1"), ("A"), 10⟩

/-- Second book by author A, price 10. -/
def exBookA2 : Book := ⟨("B2"), ("A"), 10⟩

/-- A two-line order, both lines by author A. -/
def exBooksA : List (Book × ℕ) := [(exBookA1, 1), (exBookA2, 1)]

/-- A general discount (id 1, window 0..100, 50 percent off, one use
left). -/
def exGeneralDiscount : Discount := ⟨1, 0, 100, 1/2, 1, none, none⟩

/-- A heap whose every reference holds `exGeneralDiscount`. -/
def exHeapG : ℕ → Discount := fun _ => exGeneralDiscount

/-- A single-line order: one book, price 10, quantity 1. -/
def exBooksG : List (Book × ℕ) := [(⟨("B"), ("X"), 10⟩, 1)]

/-- A general discount for the idempotence counterexample: 10 percent off,
one use left. -/
def exTenPercent : Discount := ⟨1, 0, 100, 1/10, 1, none, none⟩

/-- A heap whose every reference holds `exTenPercent`. -/
def exHeap9 : ℕ → Discount := fun _ => exTenPercent

/-- A single-line order of price 51 (so that removing the 10 percent
discount crosses the shipping waiver threshold). -/
def exBooks9 : List (Book × ℕ) := [(⟨("B"), ("X"), 51⟩, 1)]

/-- A heap holding a valid general discount at reference 0 (id 1, 3 uses)
and an expired general discount at reference 1 (id 2, window 50..60). -/
def exHeap8 : ℕ → Discount := fun r =>
  if r = 0 then ⟨1, 0, 100, 1/10, 3, none, none⟩
  else ⟨2, 50, 60, 1/10, 3, none, none⟩

/-- A single-line order of price 50, quantity 1 (waiver boundary). -/
def exBooks50 : List (Book × ℕ) := [(⟨("B"), ("X"), 50⟩, 1)]

/-- A single-line order of price 60, quantity 1 (above the waiver
threshold). -/
def exBooks60 : List (Book × ℕ) := [(⟨("B"), ("X"), 60⟩, 1)]

/-- A store for the run-all order counterexample: registry holds discount
id 1 at reference 0 and id 2 at reference 1; one long-tenured customer. -/
def exStore3 : Store :=
  ⟨fun r => if r = 0 then ⟨1, 0, 10000, 1/10, 1, none, none⟩
    else ⟨2, 0, 10000, 1/5, 1, none, none⟩,
   [], [0, 1], [⟨("john"), ("berlin"), 0, [], none⟩]⟩

/-- Black Friday of some year, 1000 days after day 0. -/
def exBlackFriday : Date := ⟨1000, 11, 24⟩

/-- A store with one customer whose location is uppercase BERLIN and a
registry holding discount id 1 at reference 0. -/
def exStore4 : Store :=
  ⟨fun _ => ⟨1, 0, 10000, 1/10, 1, none, none⟩,
   [], [0], [⟨("john"), ("BERLIN"), 0, [], none⟩]⟩

/-- A store with an empty discount registry and one long-tenured
customer. -/
def exStore5 : Store :=
  ⟨fun _ => ⟨1, 0, 10000, 1/10, 1, none, none⟩,
   [], [], [⟨("john"), ("berlin"), 0, [], none⟩]⟩

/-- A store whose book catalog holds a single book titled Dune. -/
def exStore6 : Store :=
  ⟨fun _ => ⟨1, 0, 10000, 1/10, 1, none, none⟩,
   [⟨("Dune"), ("FH"), 10⟩], [], [⟨("john"), ("berlin"), 0, [], none⟩]⟩

/-- A missing book title used by the order-creation counterexample. -/
def exMissingTitle : String := "Missing"

/-- Modelled from the spec: case-insensitive equality of two location
strings (the matching semantics the location-rule claim asserts).  Used
only to compare against the exact matching `discount_location` performs. -/
def eqIgnoreCase (a b : String) : Bool := pyLower a == pyLower b

/-- Equality of all discount fields except the usage counter (the pricing
engine never mutates these). -/
def coreEq (d1 d2 : Discount) : Prop :=
  d1.id = d2.id ∧ d1.start_valid = d2.start_valid ∧ d1.end_valid = d2.end_valid ∧
  d1.amount = d2.amount ∧ d1.coupon_code = d2.coupon_code ∧
  d1.author_specific = d2.author_specific


end Bookstore

namespace Bookstore

/-! Helper lemmas about the pricing-engine steps. -/

theorem setRef_self (h : ℕ → Discount) (r : ℕ) (d : Discount) :
    setRef h r d r = d := by
  simp [setRef]

theorem setRef_other (h : ℕ → Discount) (r : ℕ) (d : Discount) (r2 : ℕ)
    (hne : r2 ≠ r) : setRef h r d r2 = h r2 := by
  simp [setRef, hne]

theorem lineStep_found (asd : List ℕ) (s : PState) (bq : Book × ℕ) (r : ℕ)
    (hf : asd.find? (fun r2 => (s.heap r2).author_specific == some bq.1.author)
      = some r) :
    lineStep asd s bq =
      ⟨setRef s.heap r { s.heap r with nb_usage := (s.heap r).nb_usage - 1 },
       if (s.heap r).nb_usage - 1 = 0 then
         s.cust.filter (fun r2 =>
           !((setRef s.heap r
               { s.heap r with nb_usage := (s.heap r).nb_usage - 1 } r2).id
             == (s.heap r).id))
       else s.cust,
       s.total + bq.1.price * (1 - (s.heap r).amount) * (bq.2 : ℚ)⟩ := by
  simp only [lineStep, hf]

theorem lineStep_notFound (asd : List ℕ) (s : PState) (bq : Book × ℕ)
    (hf : asd.find? (fun r2 => (s.heap r2).author_specific == some bq.1.author)
      = none) :
    lineStep asd s bq = ⟨s.heap, s.cust, s.total + bq.1.price * (bq.2 : ℚ)⟩ := by
  simp only [lineStep, hf]

theorem generalStep_eq (s : PState) (r : ℕ) :
    generalStep s r =
      ⟨setRef s.heap r { s.heap r with nb_usage := (s.heap r).nb_usage - 1 },
       if (s.heap r).nb_usage - 1 = 0 then
         s.cust.filter (fun r2 =>
           !((setRef s.heap r
               { s.heap r with nb_usage := (s.heap r).nb_usage - 1 } r2).id
             == (s.heap r).id))
       else s.cust,
       s.total * (1 - (s.heap r).amount)⟩ := rfl

theorem coreEq_refl (d : Discount) : coreEq d d :=
  ⟨rfl, rfl, rfl, rfl, rfl, rfl⟩

theorem coreEq_trans {d1 d2 d3 : Discount} (h1 : coreEq d1 d2)
    (h2 : coreEq d2 d3) : coreEq d1 d3 := by
  obtain ⟨a1, b1, c1, e1, f1, g1⟩ := h1
  obtain ⟨a2, b2, c2, e2, f2, g2⟩ := h2
  exact ⟨a1.trans a2, b1.trans b2, c1.trans c2, e1.trans e2, f1.trans f2,
    g1.trans g2⟩

theorem coreEq_decr (d : Discount) (n : ℤ) :
    coreEq { d with nb_usage := n } d :=
  ⟨rfl, rfl, rfl, rfl, rfl, rfl⟩

theorem coreEq_valid {d1 d2 : Discount} (h : coreEq d1 d2) (now : ℤ) :
    d1.valid now = d2.valid now := by
  obtain ⟨_, hb, hc, _, _, _⟩ := h
  simp [Discount.valid, hb, hc]

theorem lineStep_coreEq (asd : List ℕ) (s : PState) (bq : Book × ℕ) (r2 : ℕ) :
    coreEq ((lineStep asd s bq).heap r2) (s.heap r2) := by
  cases hf : asd.find?
      (fun r3 => (s.heap r3).author_specific == some bq.1.author) with
  | none => rw [lineStep_notFound _ _ _ hf]; exact coreEq_refl _
  | some r =>
    rw [lineStep_found _ _ _ _ hf]
    show coreEq (setRef s.heap r _ r2) (s.heap r2)
    by_cases h2 : r2 = r
    · subst h2; rw [setRef_self]; exact coreEq_decr _ _
    · rw [setRef_other _ _ _ _ h2]; exact coreEq_refl _

theorem generalStep_coreEq (s : PState) (r : ℕ) (r2 : ℕ) :
    coreEq ((generalStep s r).heap r2) (s.heap r2) := by
  rw [generalStep_eq]
  show coreEq (setRef s.heap r _ r2) (s.heap r2)
  by_cases h2 : r2 = r
  · subst h2; rw [setRef_self]; exact coreEq_decr _ _
  · rw [setRef_other _ _ _ _ h2]; exact coreEq_refl _

theorem linePhase_coreEq (asd : List ℕ) (books : List (Book × ℕ)) (s : PState)
    (r2 : ℕ) :
    coreEq ((books.foldl (lineStep asd) s).heap r2) (s.heap r2) := by
  induction books generalizing s with
  | nil => exact coreEq_refl _
  | cons bq t ih =>
    rw [List.foldl_cons]
    exact coreEq_trans (ih (lineStep asd s bq)) (lineStep_coreEq asd s bq r2)

theorem genPhase_coreEq (l : List ℕ) (s : PState) (r2 : ℕ) :
    coreEq ((l.foldl generalStep s).heap r2) (s.heap r2) := by
  induction l generalizing s with
  | nil => exact coreEq_refl _
  | cons r t ih =>
    rw [List.foldl_cons]
    exact coreEq_trans (ih (generalStep s r)) (generalStep_coreEq s r r2)

theorem lineStep_heap_frame (asd : List ℕ) (s : PState) (bq : Book × ℕ)
    (r2 : ℕ) (h : r2 ∉ asd) : (lineStep asd s bq).heap r2 = s.heap r2 := by
  cases hf : asd.find?
      (fun r3 => (s.heap r3).author_specific == some bq.1.author) with
  | none => rw [lineStep_notFound _ _ _ hf]
  | some r =>
    rw [lineStep_found _ _ _ _ hf]
    have hr : r ∈ asd := List.mem_of_find?_eq_some hf
    exact setRef_other _ _ _ _ (fun he => h (he ▸ hr))

theorem linePhase_heap_frame (asd : List ℕ) (books : List (Book × ℕ))
    (s : PState) (r2 : ℕ) (h : r2 ∉ asd) :
    (books.foldl (lineStep asd) s).heap r2 = s.heap r2 := by
  induction books generalizing s with
  | nil => rfl
  | cons bq t ih =>
    rw [List.foldl_cons, ih (lineStep asd s bq), lineStep_heap_frame _ _ _ _ h]

theorem generalStep_heap_frame (s : PState) (r : ℕ) (r2 : ℕ) (h : r2 ≠ r) :
    (generalStep s r).heap r2 = s.heap r2 := by
  rw [generalStep_eq]
  exact setRef_other _ _ _ _ h

theorem genPhase_heap_frame (l : List ℕ) (s : PState) (r2 : ℕ) (h : r2 ∉ l) :
    (l.foldl generalStep s).heap r2 = s.heap r2 := by
  induction l generalizing s with
  | nil => rfl
  | cons r t ih =>
    rw [List.foldl_cons, ih (generalStep s r) (fun hm => h (List.mem_cons_of_mem _ hm)),
      generalStep_heap_frame s r r2 (fun he => h (he ▸ List.mem_cons_self _ _))]

end Bookstore

namespace Bookstore

theorem lineStep_cust_subset (asd : List ℕ) (s : PState) (bq : Book × ℕ)
    (r0 : ℕ) (h : r0 ∈ (lineStep asd s bq).cust) : r0 ∈ s.cust := by
  cases hf : asd.find?
      (fun r3 => (s.heap r3).author_specific == some bq.1.author) with
  | none => rw [lineStep_notFound _ _ _ hf] at h; exact h
  | some r =>
    rw [lineStep_found _ _ _ _ hf] at h
    by_cases hz : (s.heap r).nb_usage - 1 = 0
    · rw [if_pos hz] at h; exact List.mem_of_mem_filter h
    · rw [if_neg hz] at h; exact h

theorem generalStep_cust_subset (s : PState) (r : ℕ) (r0 : ℕ)
    (h : r0 ∈ (generalStep s r).cust) : r0 ∈ s.cust := by
  rw [generalStep_eq] at h
  by_cases hz : (s.heap r).nb_usage - 1 = 0
  · rw [if_pos hz] at h; exact List.mem_of_mem_filter h
  · rw [if_neg hz] at h; exact h

theorem linePhase_cust_not_mem (asd : List ℕ) (books : List (Book × ℕ))
    (s : PState) (r0 : ℕ) (h : r0 ∉ s.cust) :
    r0 ∉ (books.foldl (lineStep asd) s).cust := by
  induction books generalizing s with
  | nil => exact h
  | cons bq t ih =>
    rw [List.foldl_cons]
    exact ih (lineStep asd s bq) (fun hm => h (lineStep_cust_subset _ _ _ _ hm))

theorem genPhase_cust_not_mem (l : List ℕ) (s : PState) (r0 : ℕ)
    (h : r0 ∉ s.cust) : r0 ∉ (l.foldl generalStep s).cust := by
  induction l generalizing s with
  | nil => exact h
  | cons r t ih =>
    rw [List.foldl_cons]
    exact ih (generalStep s r) (fun hm => h (generalStep_cust_subset _ _ _ hm))

theorem lineStep_cust_mem (asd : List ℕ) (s : PState) (bq : Book × ℕ)
    (r0 : ℕ) (h0 : r0 ∈ s.cust)
    (hid : ∀ r2 ∈ asd, (s.heap r2).id ≠ (s.heap r0).id) :
    r0 ∈ (lineStep asd s bq).cust := by
  cases hf : asd.find?
      (fun r3 => (s.heap r3).author_specific == some bq.1.author) with
  | none => rw [lineStep_notFound _ _ _ hf]; exact h0
  | some r =>
    rw [lineStep_found _ _ _ _ hf]
    have hr : r ∈ asd := List.mem_of_find?_eq_some hf
    have hne : (s.heap r).id ≠ (s.heap r0).id := hid r hr
    have hr0r : r0 ≠ r := fun he => hne (by rw [he])
    by_cases hz : (s.heap r).nb_usage - 1 = 0
    · rw [if_pos hz]
      refine List.mem_filter.mpr ⟨h0, ?_⟩
      rw [setRef_other _ _ _ _ hr0r]
      simp only [Bool.not_eq_eq_eq_not, Bool.not_true, beq_eq_false_iff_ne, ne_eq]
      exact fun he => hne he.symm
    · rw [if_neg hz]; exact h0

theorem generalStep_cust_mem (s : PState) (r : ℕ) (r0 : ℕ) (h0 : r0 ∈ s.cust)
    (hne : (s.heap r).id ≠ (s.heap r0).id) : r0 ∈ (generalStep s r).cust := by
  rw [generalStep_eq]
  have hr0r : r0 ≠ r := fun he => hne (by rw [he])
  by_cases hz : (s.heap r).nb_usage - 1 = 0
  · rw [if_pos hz]
    refine List.mem_filter.mpr ⟨h0, ?_⟩
    rw [setRef_other _ _ _ _ hr0r]
    simp only [Bool.not_eq_eq_eq_not, Bool.not_true, beq_eq_false_iff_ne, ne_eq]
    exact fun he => hne he.symm
  · rw [if_neg hz]; exact h0

theorem linePhase_cust_mem (asd : List ℕ) (books : List (Book × ℕ))
    (s : PState) (r0 : ℕ) (h0 : r0 ∈ s.cust)
    (hid : ∀ r2 ∈ asd, (s.heap r2).id ≠ (s.heap r0).id) :
    r0 ∈ (books.foldl (lineStep asd) s).cust := by
  induction books generalizing s with
  | nil => exact h0
  | cons bq t ih =>
    rw [List.foldl_cons]
    refine ih (lineStep asd s bq) (lineStep_cust_mem _ _ _ _ h0 hid) ?_
    intro r2 hr2
    rw [(lineStep_coreEq asd s bq r2).1, (lineStep_coreEq asd s bq r0).1]
    exact hid r2 hr2

theorem genPhase_cust_mem (l : List ℕ) (s : PState) (r0 : ℕ) (h0 : r0 ∈ s.cust)
    (hid : ∀ r2 ∈ l, (s.heap r2).id ≠ (s.heap r0).id) :
    r0 ∈ (l.foldl generalStep s).cust := by
  induction l generalizing s with
  | nil => exact h0
  | cons r t ih =>
    rw [List.foldl_cons]
    refine ih (generalStep s r)
      (generalStep_cust_mem _ _ _ h0 (hid r (List.mem_cons_self _ _))) ?_
    intro r2 hr2
    rw [(generalStep_coreEq s r r2).1, (generalStep_coreEq s r r0).1]
    exact hid r2 (List.mem_cons_of_mem _ hr2)

end Bookstore

namespace Bookstore

theorem genPhase_nb_usage_count (l : List ℕ) (s : PState) (r0 : ℕ) :
    ((l.foldl generalStep s).heap r0).nb_usage =
      (s.heap r0).nb_usage - (l.count r0 : ℤ) := by
  induction l generalizing s with
  | nil => simp
  | cons r t ih =>
    rw [List.foldl_cons, ih (generalStep s r)]
    by_cases he : r0 = r
    · subst he
      have hstep : ((generalStep s r0).heap r0).nb_usage =
          (s.heap r0).nb_usage - 1 := by
        rw [generalStep_eq]
        show (setRef s.heap r0 _ r0).nb_usage = _
        rw [setRef_self]
      rw [hstep, List.count_cons_self]
      push_cast
      ring
    · rw [generalStep_heap_frame s r r0 he,
        List.count_cons_of_ne he]

theorem genPhase_removed (l : List ℕ) (s : PState) (r0 : ℕ)
    (hr0 : r0 ∈ l) (hu : (s.heap r0).nb_usage = 1) :
    r0 ∉ (l.foldl generalStep s).cust := by
  induction l generalizing s with
  | nil => cases hr0
  | cons r t ih =>
    rw [List.foldl_cons]
    by_cases he : r0 = r
    · subst he
      refine genPhase_cust_not_mem t (generalStep s r0) r0 ?_
      rw [generalStep_eq]
      have hz : (s.heap r0).nb_usage - 1 = 0 := by rw [hu]; ring
      rw [if_pos hz]
      intro hmem
      have := (List.mem_filter.mp hmem).2
      rw [setRef_self] at this
      simp at this
    · have hr0t : r0 ∈ t := by
        rcases List.mem_cons.mp hr0 with h1 | h1
        · exact absurd h1 he
        · exact h1
      refine ih (generalStep s r) hr0t ?_
      rw [generalStep_heap_frame s r r0 he]
      exact hu

theorem genPhase_kept (l : List ℕ) (s : PState) (hnd : l.Nodup)
    (hinj : ∀ r1 ∈ l, ∀ r2 ∈ l, (s.heap r1).id = (s.heap r2).id → r1 = r2)
    (r0 : ℕ) (hr0 : r0 ∈ l) (h0 : r0 ∈ s.cust)
    (hu : (s.heap r0).nb_usage ≠ 1) :
    r0 ∈ (l.foldl generalStep s).cust := by
  induction l generalizing s with
  | nil => cases hr0
  | cons r t ih =>
    obtain ⟨hrt, hndt⟩ := List.nodup_cons.mp hnd
    rw [List.foldl_cons]
    rcases List.mem_cons.mp hr0 with he | hr0t
    · subst he
      have hcust : (generalStep s r0).cust = s.cust := by
        rw [generalStep_eq]
        have hz : ¬((s.heap r0).nb_usage - 1 = 0) := by omega
        rw [if_neg hz]
      refine genPhase_cust_mem t (generalStep s r0) r0 (by rw [hcust]; exact h0) ?_
      intro r2 hr2
      rw [(generalStep_coreEq s r0 r2).1, (generalStep_coreEq s r0 r0).1]
      intro he
      exact hrt ((hinj r2 (List.mem_cons_of_mem _ hr2) r0 (List.mem_cons_self _ _)
        he) ▸ hr2)
    · have hne : r0 ≠ r := fun he => hrt (he ▸ hr0t)
      have hid : (s.heap r).id ≠ (s.heap r0).id := by
        intro he
        exact hrt ((hinj r0 (List.mem_cons_of_mem _ hr0t) r (List.mem_cons_self _ _)
          he.symm) ▸ hr0t)
      refine ih (generalStep s r) hndt ?_ hr0t
        (generalStep_cust_mem s r r0 h0 hid) ?_
      · intro r1 hr1 r2 hr2
        rw [(generalStep_coreEq s r r1).1, (generalStep_coreEq s r r2).1]
        exact hinj r1 (List.mem_cons_of_mem _ hr1) r2 (List.mem_cons_of_mem _ hr2)
      · rw [generalStep_heap_frame s r r0 hne]
        exact hu

theorem genPhase_total_zero (l : List ℕ) (s : PState) (h : s.total = 0) :
    (l.foldl generalStep s).total = 0 := by
  induction l generalizing s with
  | nil => exact h
  | cons r t ih =>
    rw [List.foldl_cons]
    refine ih (generalStep s r) ?_
    rw [generalStep_eq]
    show s.total * _ = 0
    rw [h, zero_mul]

theorem linePhase_nil (books : List (Book × ℕ)) (s : PState) :
    books.foldl (lineStep []) s = ⟨s.heap, s.cust, s.total + lineSubtotal books⟩ := by
  induction books generalizing s with
  | nil => show s = _; rw [lineSubtotal, add_zero]
  | cons bq t ih =>
    rw [List.foldl_cons, lineStep_notFound [] s bq rfl, ih, lineSubtotal]
    show PState.mk _ _ _ = PState.mk _ _ _
    rw [add_assoc]

theorem mem_generalSnapshot_iff (now : ℤ) (heap : ℕ → Discount) (cust : List ℕ)
    (r0 : ℕ) :
    r0 ∈ generalSnapshot now heap cust ↔
      r0 ∈ cust ∧ (heap r0).valid now = true ∧
        strTruthy (heap r0).author_specific = false := by
  simp [generalSnapshot, List.mem_filter]

theorem mem_authorSnapshot_iff (now : ℤ) (heap : ℕ → Discount) (cust : List ℕ)
    (r0 : ℕ) :
    r0 ∈ authorSnapshot now heap cust ↔
      r0 ∈ cust ∧ (heap r0).valid now = true ∧
        strTruthy (heap r0).author_specific = true := by
  simp [authorSnapshot, List.mem_filter]

theorem calc_heap (now : ℤ) (ship : ℚ) (books : List (Book × ℕ))
    (heap : ℕ → Discount) (cust : List ℕ) :
    (calculate_total_price now ship books heap cust).heap =
      (runPhases now books heap cust).heap := rfl

theorem calc_cust (now : ℤ) (ship : ℚ) (books : List (Book × ℕ))
    (heap : ℕ → Discount) (cust : List ℕ) :
    (calculate_total_price now ship books heap cust).cust =
      (runPhases now books heap cust).cust := rfl

theorem calc_price (now : ℤ) (ship : ℚ) (books : List (Book × ℕ))
    (heap : ℕ → Discount) (cust : List ℕ) :
    (calculate_total_price now ship books heap cust).price =
      round2 ((runPhases now books heap cust).total +
        if 50 < (runPhases now books heap cust).total then 0 else ship) := rfl

theorem roundHalfEven_intCast (n : ℤ) : roundHalfEven ((n : ℚ)) = n := by
  have hq : qfloor ((n : ℚ)) = n := by
    simp [qfloor]
  simp [roundHalfEven, hq]

theorem round2_eq_of_mul_hundred (q : ℚ) (n : ℤ) (h : q * 100 = (n : ℚ)) :
    round2 q = (n : ℚ) / 100 := by
  rw [round2, h, roundHalfEven_intCast]

end Bookstore

namespace Bookstore

theorem runPhases_eq (now : ℤ) (books : List (Book × ℕ)) (heap : ℕ → Discount)
    (cust : List ℕ) :
    runPhases now books heap cust =
      (generalSnapshot now heap cust).foldl generalStep
        (books.foldl (lineStep (authorSnapshot now heap cust)) ⟨heap, cust, 0⟩) :=
  rfl

theorem runPhases_nil_cust (now : ℤ) (books : List (Book × ℕ))
    (heap : ℕ → Discount) :
    runPhases now books heap [] = ⟨heap, [], lineSubtotal books⟩ := by
  rw [runPhases_eq]
  have h1 : authorSnapshot now heap [] = [] := rfl
  have h2 : generalSnapshot now heap [] = [] := rfl
  rw [h1, h2, List.foldl_nil, linePhase_nil, zero_add]

/-- C7: in the shipping phase of CalculateTotal the waiver threshold is
strict: when the post-discount pre-shipping running total is exactly 50 the
provider cost is added to the returned price, and when it strictly exceeds
50 the shipping cost is forced to 0 whatever the provider returned. -/
theorem c7_shipping_waiver (now : ℤ) (ship : ℚ) (books : List (Book × ℕ))
    (heap : ℕ → Discount) (cust : List ℕ) :
    (preShipTotal now books heap cust = 50 →
      (calculate_total_price now ship books heap cust).price =
        round2 (50 + ship)) ∧
    (50 < preShipTotal now books heap cust →
      (calculate_total_price now ship books heap cust).price =
        round2 (preShipTotal now books heap cust)) := by
  rw [preShipTotal]
  constructor
  · intro h
    rw [calc_price, h, if_neg (by norm_num)]
  · intro h
    rw [calc_price, if_pos h, add_zero]

/-- Witness for C7 at a concrete boundary order: a single line of price 50
hits the threshold exactly and pays shipping; a single line of price 60
strictly exceeds it and the provider cost 7 is discarded. -/
theorem c7_witness :
    preShipTotal 5 exBooks50 exHeapG [] = 50 ∧
    (calculate_total_price 5 7 exBooks50 exHeapG []).price = round2 (50 + 7) ∧
    50 < preShipTotal 5 exBooks60 exHeapG [] ∧
    (calculate_total_price 5 7 exBooks60 exHeapG []).price =
      round2 (preShipTotal 5 exBooks60 exHeapG []) := by
  have h1 : preShipTotal 5 exBooks50 exHeapG [] = 50 := by
    rw [preShipTotal, runPhases_nil_cust]
    norm_num [lineSubtotal, exBooks50]
  have h2 : 50 < preShipTotal 5 exBooks60 exHeapG [] := by
    rw [preShipTotal, runPhases_nil_cust]
    norm_num [lineSubtotal, exBooks60]
  exact ⟨h1, (c7_shipping_waiver 5 7 exBooks50 exHeapG []).1 h1, h2,
    (c7_shipping_waiver 5 7 exBooks60 exHeapG []).2 h2⟩

/-- C8: a general (non-author-scoped) discount held by the customer that is
invalid at calculation time is left completely untouched by
CalculateTotal: its heap record (in particular `nb_usage`) is unchanged
and the reference stays in the discount list of the customer.  The id
hypothesis is the uniqueness of discount ids of the data model. -/
theorem c8_invalid_untouched (now : ℤ) (ship : ℚ) (books : List (Book × ℕ))
    (heap : ℕ → Discount) (cust : List ℕ) (r0 : ℕ) (h0 : r0 ∈ cust)
    (hv : (heap r0).valid now = false)
    (hg : strTruthy (heap r0).author_specific = false)
    (hid : ∀ r2 ∈ cust, r2 ≠ r0 → (heap r2).id ≠ (heap r0).id) :
    (calculate_total_price now ship books heap cust).heap r0 = heap r0 ∧
    r0 ∈ (calculate_total_price now ship books heap cust).cust := by
  rw [calc_heap, calc_cust, runPhases_eq]
  have hnotasd : r0 ∉ authorSnapshot now heap cust := by
    rw [mem_authorSnapshot_iff]
    rintro ⟨-, hval, -⟩
    rw [hv] at hval
    cases hval
  have hnotvd : r0 ∉ generalSnapshot now heap cust := by
    rw [mem_generalSnapshot_iff]
    rintro ⟨-, hval, -⟩
    rw [hv] at hval
    cases hval
  have hidasd : ∀ r2 ∈ authorSnapshot now heap cust,
      (heap r2).id ≠ (heap r0).id := by
    intro r2 hr2
    have hr2c : r2 ∈ cust := ((mem_authorSnapshot_iff now heap cust r2).mp hr2).1
    have hne : r2 ≠ r0 := fun he => hnotasd (he ▸ hr2)
    exact hid r2 hr2c hne
  constructor
  · rw [genPhase_heap_frame _ _ _ hnotvd,
      linePhase_heap_frame _ _ _ _ hnotasd]
  · have h1 : r0 ∈ (books.foldl (lineStep (authorSnapshot now heap cust))
        ⟨heap, cust, 0⟩).cust :=
      linePhase_cust_mem _ _ _ _ h0 hidasd
    refine genPhase_cust_mem _ _ _ h1 ?_
    intro r2 hr2
    rw [(linePhase_coreEq (authorSnapshot now heap cust) books ⟨heap, cust, 0⟩ r2).1,
      (linePhase_coreEq (authorSnapshot now heap cust) books ⟨heap, cust, 0⟩ r0).1]
    have hr2c : r2 ∈ cust := ((mem_generalSnapshot_iff now heap cust r2).mp hr2).1
    have hne : r2 ≠ r0 := fun he => hnotvd (he ▸ hr2)
    exact hid r2 hr2c hne

/-- Witness for C8: with a valid general discount at reference 0 and an
expired one (window 50..60, instant 5) at reference 1, pricing leaves the
expired discount byte-for-byte unchanged and still held. -/
theorem c8_witness :
    (1 ∈ ([0, 1] : List ℕ)) ∧ (exHeap8 1).valid 5 = false ∧
    (calculate_total_price 5 7 exBooksG exHeap8 [0, 1]).heap 1 = exHeap8 1 ∧
    1 ∈ (calculate_total_price 5 7 exBooksG exHeap8 [0, 1]).cust := by
  have h := c8_invalid_untouched 5 7 exBooksG exHeap8 [0, 1] 1 (by decide)
    (by decide) (by decide) (by decide)
  exact ⟨by decide, by decide, h.1, h.2⟩

/-- C10 counterexample against the by-one decrement as universally stated:
spec section 4.2 allows duplicate assignment, so a customer may hold the
same single-use valid general discount reference twice; on an order with no
lines the order-level loop then decrements it once per occurrence, ending
at -1 where the claim predicts 1 - 1 = 0. -/
theorem c10_counterexample :
    (0 ∈ ([0, 0] : List ℕ)) ∧ (exHeapG 0).valid 5 = true ∧
    strTruthy (exHeapG 0).author_specific = false ∧
    (exHeapG 0).nb_usage = 1 ∧
    ((calculate_total_price 5 7 [] exHeapG [0, 0]).heap 0).nb_usage = -1 := by
  refine ⟨by decide, by decide, by decide, by decide, by decide⟩

/-- C10 amended: on an order whose per-line phase produces a zero running
total (in particular an order with no lines), CalculateTotal still consumes
every currently-valid general discount held by the customer although the
discount has no monetary effect (the pre-shipping total stays 0): its
`nb_usage` is decremented once per occurrence of the discount in the
customer list — by exactly one only when the customer holds it once — and a
discount with one use remaining is removed from the customer list. -/
theorem c10_zero_total_consumes (now : ℤ) (ship : ℚ) (books : List (Book × ℕ))
    (heap : ℕ → Discount) (cust : List ℕ)
    (ht : (books.foldl (lineStep (authorSnapshot now heap cust))
      ⟨heap, cust, 0⟩).total = 0) :
    preShipTotal now books heap cust = 0 ∧
    ∀ r0 ∈ generalSnapshot now heap cust,
      ((calculate_total_price now ship books heap cust).heap r0).nb_usage =
        (heap r0).nb_usage - ((generalSnapshot now heap cust).count r0 : ℤ) ∧
      ((heap r0).nb_usage = 1 →
        r0 ∉ (calculate_total_price now ship books heap cust).cust) := by
  constructor
  · rw [preShipTotal, runPhases_eq]
    exact genPhase_total_zero _ _ ht
  · intro r0 hr0
    obtain ⟨hr0c, hval, hgen⟩ := (mem_generalSnapshot_iff now heap cust r0).mp hr0
    have hnotasd : r0 ∉ authorSnapshot now heap cust := by
      rw [mem_authorSnapshot_iff]
      rintro ⟨-, -, htr⟩
      rw [hgen] at htr
      cases htr
    have hheap1 : (books.foldl (lineStep (authorSnapshot now heap cust))
        ⟨heap, cust, 0⟩).heap r0 = heap r0 :=
      linePhase_heap_frame _ _ _ _ hnotasd
    rw [calc_heap, calc_cust, runPhases_eq]
    constructor
    · rw [genPhase_nb_usage_count, hheap1]
    · intro hu
      refine genPhase_removed _ _ r0 hr0 ?_
      rw [hheap1]
      exact hu

/-- Witness for C10 amended: an order with no lines still consumes the
single-use valid general discount at reference 0 (held once, so decremented
by exactly one) and removes it. -/
theorem c10_witness :
    preShipTotal 5 [] exHeapG [0] = 0 ∧
    (generalSnapshot 5 exHeapG [0]).count 0 = 1 ∧
    ((calculate_total_price 5 7 [] exHeapG [0]).heap 0).nb_usage =
      (exHeapG 0).nb_usage - ((generalSnapshot 5 exHeapG [0]).count 0 : ℤ) ∧
    0 ∉ (calculate_total_price 5 7 [] exHeapG [0]).cust := by
  have h := c10_zero_total_consumes 5 7 [] exHeapG [0] rfl
  have h2 := h.2 0 (by decide)
  exact ⟨h.1, by decide, h2.1, h2.2 (by decide)⟩

end Bookstore


namespace Bookstore

/-- C1 counterexample: the customer holds one author-scoped discount
(50 percent off author A, one use left) and orders two books by author A,
price 10 each.  The claim predicts a pre-shipping total of 15 (second line
at full price) and a final usage count of 0; the code applies the exhausted
discount to the second line as well, because the per-line search uses the
`author_specific_discounts` snapshot, which removing the discount from
`customer.discounts` does not update: the total is 10 and the usage count
ends at -1. -/
theorem c1_counterexample :
    (runPhases 5 exBooksA exHeapA [0]).total = 10 ∧
    ((runPhases 5 exBooksA exHeapA [0]).heap 0).nb_usage = -1 ∧
    (runPhases 5 exBooksA exHeapA [0]).cust = [] := by
  refine ⟨?_, ?_, ?_⟩ <;>
    norm_num [runPhases, authorSnapshot, generalSnapshot, lineStep, generalStep,
      setRef, Discount.valid, strTruthy, exHeapA, exAuthorDiscount, exBooksA,
      exBookA1, exBookA2, List.filter, List.find?, List.foldl]

/-- C1 amended: on an order with two lines matched by the same author-scoped
discount with one use left, the discount is applied to the first matching
line, decremented and removed from the discount list of the customer; but
the per-line pass searches the pre-pass snapshot, so the discount is ALSO
applied to the later matching line, driving `nb_usage` to -1 (the removal
only prevents use in later calculations, not later lines of the same
pass). -/
theorem c1_amended (now sv ev : ℤ) (amt : ℚ) (idv : ℤ) (cc : Option String)
    (a : String) (heap : ℕ → Discount) (r : ℕ)
    (hd : heap r = ⟨idv, sv, ev, amt, 1, cc, some a⟩)
    (hsv : sv ≤ now) (hev : now ≤ ev) (ha : a ≠ "")
    (b1 b2 : Book) (q1 q2 : ℕ) (hb1 : b1.author = a) (hb2 : b2.author = a) :
    (runPhases now [(b1, q1), (b2, q2)] heap [r]).total =
      b1.price * (1 - amt) * q1 + b2.price * (1 - amt) * q2 ∧
    ((runPhases now [(b1, q1), (b2, q2)] heap [r]).heap r).nb_usage = -1 ∧
    (runPhases now [(b1, q1), (b2, q2)] heap [r]).cust = [] := by
  have hasd : authorSnapshot now heap [r] = [r] := by
    simp [authorSnapshot, Discount.valid, hd, strTruthy, hsv, hev, ha]
  have hvd : generalSnapshot now heap [r] = [] := by
    simp [generalSnapshot, Discount.valid, hd, strTruthy, hsv, hev, ha]
  have hf1 : List.find?
      (fun r2 => ((⟨heap, [r], 0⟩ : PState).heap r2).author_specific
        == some b1.author) [r] = some r := by
    apply List.find?_cons_of_pos
    simp [hd, hb1]
  have hs1 : lineStep [r] ⟨heap, [r], 0⟩ (b1, q1) =
      ⟨setRef heap r ⟨idv, sv, ev, amt, 0, cc, some a⟩, [],
       b1.price * (1 - amt) * (q1 : ℚ)⟩ := by
    rw [lineStep_found [r] ⟨heap, [r], 0⟩ (b1, q1) r hf1]
    simp [hd, setRef_self]
  have hf2 : List.find?
      (fun r2 => ((setRef heap r ⟨idv, sv, ev, amt, 0, cc, some a⟩) r2).author_specific
        == some b2.author) [r] = some r := by
    apply List.find?_cons_of_pos
    simp [setRef_self, hb2]
  have hs2 : lineStep [r] ⟨setRef heap r ⟨idv, sv, ev, amt, 0, cc, some a⟩, [],
      b1.price * (1 - amt) * (q1 : ℚ)⟩ (b2, q2) =
      ⟨setRef (setRef heap r ⟨idv, sv, ev, amt, 0, cc, some a⟩) r
        ⟨idv, sv, ev, amt, -1, cc, some a⟩, [],
       b1.price * (1 - amt) * (q1 : ℚ) + b2.price * (1 - amt) * (q2 : ℚ)⟩ := by
    rw [lineStep_found [r] _ (b2, q2) r hf2]
    simp [setRef_self]
  have hall : runPhases now [(b1, q1), (b2, q2)] heap [r] =
      ⟨setRef (setRef heap r ⟨idv, sv, ev, amt, 0, cc, some a⟩) r
        ⟨idv, sv, ev, amt, -1, cc, some a⟩, [],
       b1.price * (1 - amt) * (q1 : ℚ) + b2.price * (1 - amt) * (q2 : ℚ)⟩ := by
    rw [runPhases_eq, hasd, hvd]
    simp only [List.foldl_cons, List.foldl_nil, hs1, hs2]
  rw [hall]
  refine ⟨rfl, ?_, rfl⟩
  simp [setRef_self]

/-- Witness for C1 amended at the concrete two-line order of
`c1_counterexample`. -/
theorem c1_witness :
    exHeapA 0 = ⟨1, 0, 100, 1/2, 1, none, some ("A")⟩ ∧
    exBookA1.author = ("A") ∧
    ((runPhases 5 [(exBookA1, 1), (exBookA2, 1)] exHeapA [0]).heap 0).nb_usage
      = -1 ∧
    (runPhases 5 [(exBookA1, 1), (exBookA2, 1)] exHeapA [0]).cust = [] := by
  have h := c1_amended 5 0 100 (1/2) 1 none ("A") exHeapA 0 rfl (by decide)
    (by decide) (by decide) exBookA1 exBookA2 1 1 rfl rfl
  exact ⟨rfl, rfl, h.2.1, h.2.2⟩

/-- C2 at its failing input: the customer list of customer A and that of
customer B both hold reference 0 (the rules append the same Discount object
to many customers).  After customer A prices a single line of 10 with the
single-use 50 percent general discount, the usage count is 0, the discount
left the list of A; pricing the equivalent order of customer B applies the
exhausted discount again (total 5, not 10), drives `nb_usage` to -1 and
leaves the discount in the list of B — refuting that `usesRemaining` stays
non-negative and that an exhausted discount is never applied again. -/
theorem c2_code_behavior :
    ((runPhases 5 exBooksG exHeapG [0]).heap 0).nb_usage = 0 ∧
    (runPhases 5 exBooksG exHeapG [0]).cust = [] ∧
    ((runPhases 5 exBooksG (runPhases 5 exBooksG exHeapG [0]).heap [0]).heap 0).nb_usage
      = -1 ∧
    0 ∈ (runPhases 5 exBooksG (runPhases 5 exBooksG exHeapG [0]).heap [0]).cust ∧
    (runPhases 5 exBooksG (runPhases 5 exBooksG exHeapG [0]).heap [0]).total = 5 := by
  refine ⟨?_, ?_, ?_, ?_, ?_⟩ <;>
    norm_num [runPhases, authorSnapshot, generalSnapshot, lineStep, generalStep,
      setRef, Discount.valid, strTruthy, exHeapG, exGeneralDiscount, exBooksG,
      List.filter, List.find?, List.foldl]

end Bookstore

namespace Bookstore

/-- C9 amended: for a customer holding exactly one valid general discount
with one use left and positive fractional amount, pricing an order with
positive undiscounted subtotal removes the discount from the customer, and
pricing the equivalent order again yields a strictly higher PRE-SHIPPING
total (the original claim compared the final rounded totals, which the
shipping waiver can reverse — see the counterexample). -/
theorem c9_amended (now sv ev : ℤ) (amt : ℚ) (idv : ℤ) (cc : Option String)
    (heap : ℕ → Discount) (r : ℕ) (books : List (Book × ℕ))
    (hd : heap r = ⟨idv, sv, ev, amt, 1, cc, none⟩)
    (hsv : sv ≤ now) (hev : now ≤ ev) (hamt : 0 < amt)
    (hsub : 0 < lineSubtotal books) :
    (runPhases now books heap [r]).cust = [] ∧
    (runPhases now books heap [r]).total = lineSubtotal books * (1 - amt) ∧
    preShipTotal now books (runPhases now books heap [r]).heap
      (runPhases now books heap [r]).cust = lineSubtotal books ∧
    (runPhases now books heap [r]).total <
      preShipTotal now books (runPhases now books heap [r]).heap
        (runPhases now books heap [r]).cust := by
  have hasd : authorSnapshot now heap [r] = [] := by
    simp [authorSnapshot, Discount.valid, hd, strTruthy, hsv, hev]
  have hvd : generalSnapshot now heap [r] = [r] := by
    simp [generalSnapshot, Discount.valid, hd, strTruthy, hsv, hev]
  have hall : runPhases now books heap [r] =
      ⟨setRef heap r ⟨idv, sv, ev, amt, 0, cc, none⟩, [],
       lineSubtotal books * (1 - amt)⟩ := by
    rw [runPhases_eq, hasd, hvd, linePhase_nil, List.foldl_cons, List.foldl_nil,
      generalStep_eq]
    simp [hd, setRef_self, zero_add]
  rw [hall]
  have hpre2 : preShipTotal now books
      (setRef heap r ⟨idv, sv, ev, amt, 0, cc, none⟩) [] = lineSubtotal books := by
    rw [preShipTotal, runPhases_nil_cust]
  refine ⟨rfl, rfl, hpre2, ?_⟩
  rw [hpre2]
  show lineSubtotal books * (1 - amt) < lineSubtotal books
  have hpos : 0 < lineSubtotal books * amt := mul_pos hsub hamt
  nlinarith

/-- Witness for C9 amended: price 51, 10 percent single-use discount. -/
theorem c9_witness :
    exHeap9 0 = ⟨1, 0, 100, 1/10, 1, none, none⟩ ∧
    0 < lineSubtotal exBooks9 ∧
    (runPhases 5 exBooks9 exHeap9 [0]).cust = [] ∧
    (runPhases 5 exBooks9 exHeap9 [0]).total <
      preShipTotal 5 exBooks9 (runPhases 5 exBooks9 exHeap9 [0]).heap
        (runPhases 5 exBooks9 exHeap9 [0]).cust := by
  have hsub : 0 < lineSubtotal exBooks9 := by
    norm_num [lineSubtotal, exBooks9]
  have h := c9_amended 5 0 100 (1/10) 1 none exHeap9 0 exBooks9 rfl (by decide)
    (by decide) (by norm_num) hsub
  exact ⟨rfl, hsub, h.1, h.2.2.2⟩

/-- C9 counterexample against the original claim (strictly higher SECOND
final total): with a single line of 51, a single-use 10 percent discount
and a provider cost of 10, the first calculation totals
round2(45.9 + 10) = 55.9 (the discounted total is below the waiver
threshold, so shipping is charged), while the second calculation totals
round2(51) = 51 (the undiscounted total is above the threshold, shipping
waived): the second total is strictly LOWER. -/
theorem c9_counterexample :
    (calculate_total_price 5 10 exBooks9
        (calculate_total_price 5 10 exBooks9 exHeap9 [0]).heap
        (calculate_total_price 5 10 exBooks9 exHeap9 [0]).cust).price <
      (calculate_total_price 5 10 exBooks9 exHeap9 [0]).price := by
  have hasd : authorSnapshot 5 exHeap9 [0] = [] := by decide
  have hvd : generalSnapshot 5 exHeap9 [0] = [0] := by decide
  have hsub : lineSubtotal exBooks9 = 51 := by
    norm_num [lineSubtotal, exBooks9]
  have hall : runPhases 5 exBooks9 exHeap9 [0] =
      ⟨setRef exHeap9 0 ⟨1, 0, 100, 1/10, 0, none, none⟩, [], 459/10⟩ := by
    rw [runPhases_eq, hasd, hvd, linePhase_nil, List.foldl_cons, List.foldl_nil,
      generalStep_eq]
    have h9 : exHeap9 0 = ⟨1, 0, 100, 1/10, 1, none, none⟩ := rfl
    simp [h9, setRef_self, hsub, zero_add]
    norm_num
  have hcust : (calculate_total_price 5 10 exBooks9 exHeap9 [0]).cust = [] := by
    rw [calc_cust, hall]
  have hp1 : (calculate_total_price 5 10 exBooks9 exHeap9 [0]).price = 559/10 := by
    rw [calc_price, hall]
    show round2 (459/10 + if (50 : ℚ) < 459/10 then 0 else 10) = 559/10
    rw [if_neg (by norm_num)]
    have he : (459/10 : ℚ) + 10 = 559/10 := by norm_num
    rw [he]
    have h2 : round2 (559/10) = ((5590 : ℤ) : ℚ)/100 := by
      refine round2_eq_of_mul_hundred _ 5590 ?_
      norm_num
    rw [h2]
    norm_num
  have hp2 : (calculate_total_price 5 10 exBooks9
      (calculate_total_price 5 10 exBooks9 exHeap9 [0]).heap
      (calculate_total_price 5 10 exBooks9 exHeap9 [0]).cust).price = 51 := by
    rw [hcust, calc_price, runPhases_nil_cust, hsub]
    show round2 (51 + if (50 : ℚ) < 51 then 0 else 10) = 51
    rw [if_pos (by norm_num), add_zero]
    have h2 : round2 51 = ((5100 : ℤ) : ℚ)/100 := by
      refine round2_eq_of_mul_hundred _ 5100 ?_
      norm_num
    rw [h2]
    norm_num
  rw [hp1, hp2]
  norm_num

end Bookstore

namespace Bookstore

/-- C3 counterexample: on a Black-Friday date with one long-tenured
customer, the run-all convenience appends the seasonal discount (registry
reference 1, id 2) BEFORE the tenure discount (reference 0, id 1); running
the rules in the order the claim states yields the opposite list, so the
two disagree. -/
theorem c3_counterexample :
    ((run_all_discount_rules exStore3 exBlackFriday).customers.getD 0
      defaultCustomer).discounts = [some 1, some 0] ∧
    ((run_all_rules_spec_order exStore3 exBlackFriday).customers.getD 0
      defaultCustomer).discounts = [some 0, some 1] ∧
    (run_all_discount_rules exStore3 exBlackFriday).customers ≠
      (run_all_rules_spec_order exStore3 exBlackFriday).customers := by
  refine ⟨?_, ?_, ?_⟩ <;> decide

/-- C3 amended: `run_all_discount_rules` executes the seasonal-date rule
(discount id 2) FIRST and the tenure rule (discount id 1) second: on a
Black-Friday date every customer receives the id-2 discount, and every
tenure-qualifying customer receives the id-1 discount appended AFTER it. -/
theorem c3_amended (s : Store) (today : Date) (hm : today.month = 11)
    (hd : today.day = 24) :
    (run_all_discount_rules s today).customers = s.customers.map (fun c =>
      if 365 ≤ today.absDay - c.signup_absDay then
        { c with discounts :=
            c.discounts ++ [select_discount s 2, select_discount s 1] }
      else { c with discounts := c.discounts ++ [select_discount s 2] }) := by
  rw [run_all_discount_rules, discount_black_friday, if_pos ⟨hm, hd⟩,
    discount_one_year_customers]
  show (s.customers.map _).map _ = _
  rw [List.map_map]
  congr 1
  funext c
  by_cases hq : 365 ≤ today.absDay - c.signup_absDay <;>
    simp [Function.comp, select_discount, hq]

/-- Witness for C3 amended at the concrete store of the counterexample. -/
theorem c3_witness :
    exBlackFriday.month = 11 ∧ exBlackFriday.day = 24 ∧
    (run_all_discount_rules exStore3 exBlackFriday).customers =
      exStore3.customers.map (fun c =>
        if 365 ≤ exBlackFriday.absDay - c.signup_absDay then
          { c with discounts :=
              c.discounts ++ [select_discount exStore3 2, select_discount exStore3 1] }
        else { c with discounts := c.discounts ++ [select_discount exStore3 2] }) :=
  ⟨rfl, rfl, c3_amended exStore3 exBlackFriday rfl rfl⟩

end Bookstore

namespace Bookstore

/-- C4 counterexample: the customer location BERLIN is case-insensitively
equal to the target berlin, yet `discount_location` assigns nothing,
because only the target is lowercased and the comparison against the
customer location is exact. -/
theorem c4_counterexample :
    eqIgnoreCase ((exStore4.customers.getD 0 defaultCustomer).location)
      ("berlin") = true ∧
    ((discount_location exStore4 1 ("berlin")).customers.getD 0
      defaultCustomer).discounts = [] := by
  refine ⟨?_, ?_⟩ <;> decide

/-- C4 amended: the location rule assigns the discount to exactly those
customers whose stored `location` string equals the LOWERCASED target
string exactly; a customer whose location differs from the lowercased
target only in letter case receives nothing. -/
theorem c4_amended (s : Store) (discount_id : ℤ) (location : String) (i : ℕ)
    (hi : i < s.customers.length)
    (hi2 : i < (discount_location s discount_id location).customers.length) :
    ((discount_location s discount_id location).customers.get ⟨i, hi2⟩).discounts =
      if (s.customers.get ⟨i, hi⟩).location = pyLower location then
        (s.customers.get ⟨i, hi⟩).discounts ++ [select_discount s discount_id]
      else (s.customers.get ⟨i, hi⟩).discounts := by
  have hc : (discount_location s discount_id location).customers =
      s.customers.map (fun c =>
        if c.location = pyLower location then
          { c with discounts := c.discounts ++ [select_discount s discount_id] }
        else c) := rfl
  simp only [List.get_eq_getElem, hc, List.getElem_map]
  by_cases hl : s.customers[i].location = pyLower location
  · simp [hl]
  · simp [hl]

/-- Witness for C4 amended: a customer whose location is lowercase berlin
receives the discount for target BERLIN (lowercased before matching), and
the uppercase-BERLIN customer receives nothing for target berlin. -/
theorem c4_witness :
    ((discount_location exStore3 2 ("BERLIN")).customers.get
        ⟨0, by decide⟩).discounts =
      (exStore3.customers.get ⟨0, by decide⟩).discounts ++
        [select_discount exStore3 2] ∧
    ((discount_location exStore4 1 ("berlin")).customers.get
        ⟨0, by decide⟩).discounts =
      (exStore4.customers.get ⟨0, by decide⟩).discounts := by
  have h1 := c4_amended exStore3 2 ("BERLIN") 0 (by decide) (by decide)
  have h2 := c4_amended exStore4 1 ("berlin") 0 (by decide) (by decide)
  rw [if_pos (by decide)] at h1
  rw [if_neg (by decide)] at h2
  exact ⟨h1, h2⟩

/-- C5 counterexample: with an empty discount registry, requesting id 5
resolves to None without any error, and the tenure rule then appends that
None to the discount list of the qualifying customer: the list IS modified
(a phantom entry), no Lookup error is raised. -/
theorem c5_counterexample :
    select_discount exStore5 5 = none ∧
    ((discount_one_year_customers exStore5 5 ⟨1000, 5, 5⟩).customers.getD 0
      defaultCustomer).discounts = [none] := by
  refine ⟨?_, ?_⟩ <;> decide

/-- C5 amended: for a discount id absent from the registry,
`select_discount` returns None and no Lookup error arises: the tenure and
location rules append None to every matching customer (phantom
assignment), the black-friday rule appends None to every customer on its
trigger date, and the author rule fails with an AttributeError (assigning
an attribute on None), not a Lookup error, modifying nothing. -/
theorem c5_amended (s : Store) (discount_id : ℤ) (today : Date)
    (location author : String)
    (h : select_discount s discount_id = none) :
    (discount_one_year_customers s discount_id today).customers =
      s.customers.map (fun c =>
        if 365 ≤ today.absDay - c.signup_absDay then
          { c with discounts := c.discounts ++ [none] }
        else c) ∧
    (discount_location s discount_id location).customers =
      s.customers.map (fun c =>
        if c.location = pyLower location then
          { c with discounts := c.discounts ++ [none] }
        else c) ∧
    (today.month = 11 → today.day = 24 →
      (discount_black_friday s discount_id today).customers =
        s.customers.map (fun c =>
          { c with discounts := c.discounts ++ [none] })) ∧
    discount_specific_author s discount_id author =
      Except.error ("AttributeError") := by
  refine ⟨?_, ?_, ?_, ?_⟩
  · simp only [discount_one_year_customers, h]
  · simp only [discount_location, h]
  · intro hm hdy
    rw [discount_black_friday, if_pos ⟨hm, hdy⟩, h]
  · simp only [discount_specific_author, h]

/-- Witness for C5 amended at the empty-registry store, on a Black-Friday
date. -/
theorem c5_witness :
    select_discount exStore5 5 = none ∧
    (discount_one_year_customers exStore5 5 exBlackFriday).customers =
      exStore5.customers.map (fun c =>
        if 365 ≤ (1000 : ℤ) - c.signup_absDay then
          { c with discounts := c.discounts ++ [none] }
        else c) ∧
    (discount_black_friday exStore5 5 exBlackFriday).customers =
      exStore5.customers.map (fun c =>
        { c with discounts := c.discounts ++ [none] }) ∧
    discount_specific_author exStore5 5 ("X") =
      Except.error ("AttributeError") := by
  have h := c5_amended exStore5 5 exBlackFriday ("paris") ("X") (by decide)
  exact ⟨by decide, h.1, h.2.2.1 rfl rfl, h.2.2.2⟩

/-- C6 counterexample: looking up a missing title returns None with no
error, and `place_order` still creates an order whose line references that
None: an order referencing a missing record exists, refuting that no
order is created. -/
theorem c6_counterexample :
    select_book exStore6 exMissingTitle = none ∧
    (place_order defaultCustomer
      [(select_book exStore6 exMissingTitle, 1)]).order = some ⟨[(none, 1)]⟩ ∧
    (place_order defaultCustomer
      [(select_book exStore6 exMissingTitle, 1)]).order ≠ none := by
  refine ⟨?_, ?_, ?_⟩ <;> decide

/-- C6 amended: a missing book title or customer username makes the lookup
return None silently (no Not-Found error), and placing an order built from
such a lookup still creates and installs an order whose line references
None. -/
theorem c6_amended (s : Store) (title username : String)
    (hb : ∀ b ∈ s.master_books, b.title ≠ title)
    (hc : ∀ c2 ∈ s.customers, c2.username ≠ username) :
    select_book s title = none ∧
    select_customer s username = none ∧
    ∀ (c : Customer) (q : ℕ),
      (place_order c [(select_book s title, q)]).order = some ⟨[(none, q)]⟩ := by
  have h1 : select_book s title = none := by
    rw [select_book, List.find?_eq_none]
    intro b hbm
    simpa using hb b hbm
  have h2 : select_customer s username = none := by
    rw [select_customer, List.find?_eq_none]
    intro c2 hcm
    simpa using hc c2 hcm
  refine ⟨h1, h2, ?_⟩
  intro c q
  rw [h1, place_order]

/-- Witness for C6 amended at the one-book store. -/
theorem c6_witness :
    select_book exStore6 exMissingTitle = none ∧
    select_customer exStore6 ("ghost") = none ∧
    (place_order defaultCustomer
      [(select_book exStore6 exMissingTitle, 2)]).order = some ⟨[(none, 2)]⟩ := by
  have h := c6_amended exStore6 exMissingTitle ("ghost") (by decide) (by decide)
  exact ⟨h.1, h.2.1, h.2.2 defaultCustomer 2⟩

end Bookstore
